import Mathlib

/-!
Shallow embedding of the RiboCop translating-ORF detection pipeline
(modules `RiboCop/detect_orfs.py`, `RiboCop/infer_protocol.py`,
`RiboCop/cli.py`) together with proofs of the behavioural claims about it.

Python `dict` / `collections.Counter` objects are modelled as association
lists (`List (key × Nat)`); a missing key reads as count `0`, matching
`Counter` lookup semantics (and `defaultdict` creation on write).
Genomic positions are `Int`, chromosomes and strands are `String`,
read counts are `Nat`.
-/

namespace RiboCop

/-- Lookup in an association list with `Counter` semantics: a missing key
has count `0`; with duplicate keys the first entry wins (Python dicts
never hold duplicates). -/
def aget {α : Type} [DecidableEq α] (c : List (α × Nat)) (k : α) : Nat :=
  match c with
  | [] => 0
  | e :: rest => if e.1 = k then e.2 else aget rest k

/-- Increment a key's count in an association list, creating the entry when
absent: the embedding of `counter[key] += n`. -/
def aincr {α : Type} [DecidableEq α] (c : List (α × Nat)) (k : α) (n : Nat) :
    List (α × Nat) :=
  match c with
  | [] => [(k, n)]
  | e :: rest => if e.1 = k then (e.1, e.2 + n) :: rest else e :: aincr rest k n

/-- Sum of all counts stored in an association list (`sum(counter.values())`). -/
def avals {α : Type} (c : List (α × Nat)) : Nat :=
  (c.map (fun e => e.2)).sum

theorem aget_aincr {α : Type} [DecidableEq α] (c : List (α × Nat)) (k k' : α) (n : Nat) :
    aget (aincr c k n) k' = (if k = k' then n else 0) + aget c k' := by
  induction c with
  | nil =>
    by_cases h : k = k' <;> simp [aget, aincr, h]
  | cons e rest ih =>
    by_cases h : e.1 = k
    · rw [show aincr (e :: rest) k n = (e.1, e.2 + n) :: rest from by simp [aincr, h]]
      by_cases h' : k = k'
      · have hek : e.1 = k' := h.trans h'
        simp only [aget, if_pos hek, if_pos h']
        omega
      · have hek : ¬ e.1 = k' := fun hh => h' (h.symm.trans hh)
        simp [aget, hek, h']
    · rw [show aincr (e :: rest) k n = e :: aincr rest k n from by simp [aincr, h]]
      by_cases h' : e.1 = k'
      · have hkk : ¬ k = k' := fun hh => h (hh ▸ h')
        simp [aget, h', hkk]
      · simp [aget, h', ih]

theorem avals_aincr {α : Type} [DecidableEq α] (c : List (α × Nat)) (k : α) (n : Nat) :
    avals (aincr c k n) = avals c + n := by
  induction c with
  | nil => simp [aincr, avals]
  | cons e rest ih =>
    by_cases h : e.1 = k
    · simp [aincr, avals, h]
      omega
    · simp [aincr, avals, h] at ih ⊢
      omega

theorem aget_eq_zero {α : Type} [DecidableEq α] (c : List (α × Nat)) (k : α)
    (h : ∀ e ∈ c, e.1 ≠ k) : aget c k = 0 := by
  induction c with
  | nil => rfl
  | cons e rest ih =>
    have he : e.1 ≠ k := h e (by simp)
    simp [aget, he]
    exact ih (fun e' he' => h e' (by simp [he']))

/-- Key of a per-position tally: `(chromosome, genomic position)`. -/
abbrev PosKey := String × Int

/-- A `collections.Counter` over genomic positions: sparse mapping
`(chromosome, position) → count` for one (read length, strand). -/
abbrev Tally := List (PosKey × Nat)

/-- A strand-keyed map of tallies: the value type of
`alignments[length]` and the shape of the merged profile
(`dict(strand → Counter)`). -/
abbrev StrandMap := List (String × Tally)

/-- Lookup of `m[s]` in a strand-keyed map; a missing strand reads as the
empty tally (the `defaultdict(Counter)` default). -/
def mget (m : StrandMap) (s : String) : Tally :=
  match m with
  | [] => []
  | e :: rest => if e.1 = s then e.2 else mget rest s

/-- The embedding of `merged_alignments[strand][(chrom, pos_shifted)] += count`
on a `defaultdict(Counter)`. -/
def mincr (m : StrandMap) (s : String) (k : PosKey) (n : Nat) : StrandMap :=
  match m with
  | [] => [(s, [(k, n)])]
  | e :: rest => if e.1 = s then (e.1, aincr e.2 k n) :: rest else e :: mincr rest s k n

/-- Count stored for strand `s` at key `k`: `m[s][(chrom, pos)]` with the
`Counter` convention that absent positions read `0`. -/
def mlookup (m : StrandMap) (s : String) (k : PosKey) : Nat :=
  aget (mget m s) k

/-- Total count recorded in `m` for strand `s`. -/
def strand_total (m : StrandMap) (s : String) : Nat :=
  (m.map (fun e => if e.1 = s then avals e.2 else 0)).sum

theorem mlookup_mincr (m : StrandMap) (s s' : String) (k k' : PosKey) (n : Nat) :
    mlookup (mincr m s k n) s' k' =
      (if s = s' ∧ k = k' then n else 0) + mlookup m s' k' := by
  induction m with
  | nil =>
    by_cases hs : s = s'
    · subst hs
      by_cases hk : k = k' <;> simp [mincr, mlookup, mget, aget, hk]
    · simp [mincr, mlookup, mget, aget, hs]
  | cons e rest ih =>
    by_cases hs : e.1 = s
    · rw [show mincr (e :: rest) s k n = (e.1, aincr e.2 k n) :: rest from by
        simp [mincr, hs]]
      by_cases hs' : e.1 = s'
      · have hss : s = s' := hs.symm.trans hs'
        subst hss
        simp [mlookup, mget, hs', aget_aincr]
      · have hss' : ¬ s = s' := fun hh => hs' (hs.trans hh)
        simp [mlookup, mget, hs', hss']
    · rw [show mincr (e :: rest) s k n = e :: mincr rest s k n from by
        simp [mincr, hs]]
      by_cases hs' : e.1 = s'
      · have hss' : ¬ s = s' := fun hh => hs (hh ▸ hs')
        simp [mlookup, mget, hs', hss']
      · simpa [mlookup, mget, hs'] using ih

theorem strand_total_mincr (m : StrandMap) (s s' : String) (k : PosKey) (n : Nat) :
    strand_total (mincr m s k n) s' =
      strand_total m s' + (if s = s' then n else 0) := by
  induction m with
  | nil =>
    by_cases hs : s = s' <;> simp [mincr, strand_total, avals, hs]
  | cons e rest ih =>
    by_cases hs : e.1 = s
    · rw [show mincr (e :: rest) s k n = (e.1, aincr e.2 k n) :: rest from by
        simp [mincr, hs]]
      by_cases hs' : e.1 = s'
      · have hss : s = s' := hs.symm.trans hs'
        subst hss
        simp [strand_total, hs', avals_aincr]
        omega
      · have hss' : ¬ s = s' := fun hh => hs' (hs.trans hh)
        simp [strand_total, hs', hss']
    · rw [show mincr (e :: rest) s k n = e :: mincr rest s k n from by
        simp [mincr, hs]]
      by_cases hs' : e.1 = s'
      · have hss' : ¬ s = s' := fun hh => hs (hh ▸ hs')
        simp [strand_total, hs', hss'] at ih ⊢
        omega
      · simp [strand_total, hs'] at ih ⊢
        omega

/-- Innermost loop of `RiboCop.detect_orfs.merge_read_lengths`
(`for chrom, pos in alignments[length][strand]`): each recorded key is
shifted by the offset (`pos + offset` on strand `+`, `pos - offset`
otherwise) and its count added into the merged profile. -/
def merge_tally (strand : String) (offset : Int) (t : Tally) (macc : StrandMap) :
    StrandMap :=
  t.foldl (fun macc3 e =>
    let pos_shifted : Int := if strand = "+" then e.1.2 + offset else e.1.2 - offset
    mincr macc3 strand (e.1.1, pos_shifted) e.2) macc

/-- Middle loop of `merge_read_lengths` (`for strand in alignments[length]`). -/
def merge_strandmap (offset : Int) (sm : StrandMap) (macc : StrandMap) : StrandMap :=
  sm.foldl (fun macc2 sc => merge_tally sc.1 offset sc.2 macc2) macc

/-- Embedding of `RiboCop.detect_orfs.merge_read_lengths`: for each
`(length, offset)` entry of the P-site offset table, every recorded
`(chrom, pos)` key of that length's per-strand tally is shifted by the
offset and its count summed into the merged per-strand profile.
`alignments` is the bam-split tally keyed by read length and strand. -/
def merge_read_lengths (alignments : Nat → StrandMap)
    (psite_offsets : List (Nat × Int)) : StrandMap :=
  psite_offsets.foldl (fun macc lo =>
    merge_strandmap lo.2 (alignments lo.1) macc) []

/-- Spec-side definition (from the spec's words, for comparison with
`merge_read_lengths`): the total count a single length's tally
contributes at merged key `k` after shifting every recorded position by
`offset` (added on strand `+`, subtracted on `-`). -/
def shifted_count_spec (strand : String) (offset : Int) (t : Tally) (k : PosKey) : Nat :=
  (t.map (fun e =>
    if (e.1.1, if strand = "+" then e.1.2 + offset else e.1.2 - offset) = k
    then e.2 else 0)).sum

/-- Spec-side definition (from the spec's words): the merged profile's count
for strand `s` at key `k` is the sum, over all lengths of the offset
table, of that length's shifted contributions on strand `s`. -/
def merged_profile_spec (alignments : Nat → StrandMap)
    (psite_offsets : List (Nat × Int)) (s : String) (k : PosKey) : Nat :=
  (psite_offsets.map (fun lo =>
    ((alignments lo.1).map (fun sc =>
      if sc.1 = s then shifted_count_spec sc.1 lo.2 sc.2 k else 0)).sum)).sum

theorem merge_tally_mlookup (strand : String) (offset : Int) (t : Tally)
    (macc : StrandMap) (s' : String) (k' : PosKey) :
    mlookup (merge_tally strand offset t macc) s' k' =
      (if strand = s' then shifted_count_spec strand offset t k' else 0) +
        mlookup macc s' k' := by
  induction t generalizing macc with
  | nil => simp [merge_tally, shifted_count_spec]
  | cons e rest ih =>
    simp only [merge_tally, List.foldl_cons] at ih ⊢
    rw [ih, mlookup_mincr]
    by_cases hs : strand = s'
    · subst hs
      by_cases hk : (e.1.1, if strand = "+" then e.1.2 + offset else e.1.2 - offset) = k'
      · simp [shifted_count_spec, hk]
        omega
      · simp [shifted_count_spec, hk]
    · have hns : ¬ (strand = s' ∧ (e.1.1,
          if strand = "+" then e.1.2 + offset else e.1.2 - offset) = k') :=
        fun hh => hs hh.1
      simp [hs, hns]

theorem merge_strandmap_mlookup (offset : Int) (sm : StrandMap)
    (macc : StrandMap) (s' : String) (k' : PosKey) :
    mlookup (merge_strandmap offset sm macc) s' k' =
      ((sm.map (fun sc =>
        if sc.1 = s' then shifted_count_spec sc.1 offset sc.2 k' else 0)).sum) +
        mlookup macc s' k' := by
  induction sm generalizing macc with
  | nil => simp [merge_strandmap]
  | cons sc rest ih =>
    simp only [merge_strandmap, List.foldl_cons] at ih ⊢
    rw [ih, merge_tally_mlookup]
    simp only [List.map_cons, List.sum_cons]
    omega

theorem merge_fold_mlookup (alignments : Nat → StrandMap)
    (psite_offsets : List (Nat × Int)) (macc : StrandMap)
    (s : String) (k : PosKey) :
    mlookup (psite_offsets.foldl (fun m lo =>
        merge_strandmap lo.2 (alignments lo.1) m) macc) s k =
      merged_profile_spec alignments psite_offsets s k + mlookup macc s k := by
  induction psite_offsets generalizing macc with
  | nil => simp [merged_profile_spec]
  | cons lo rest ih =>
    simp only [List.foldl_cons]
    rw [ih, merge_strandmap_mlookup]
    simp only [merged_profile_spec, List.map_cons, List.sum_cons]
    omega

theorem merge_read_lengths_mlookup (alignments : Nat → StrandMap)
    (psite_offsets : List (Nat × Int)) (s : String) (k : PosKey) :
    mlookup (merge_read_lengths alignments psite_offsets) s k =
      merged_profile_spec alignments psite_offsets s k := by
  unfold merge_read_lengths
  rw [merge_fold_mlookup]
  simp [mlookup, mget, aget]

theorem merge_tally_strand_total (strand : String) (offset : Int) (t : Tally)
    (macc : StrandMap) (s' : String) :
    strand_total (merge_tally strand offset t macc) s' =
      (if strand = s' then avals t else 0) + strand_total macc s' := by
  induction t generalizing macc with
  | nil => simp [merge_tally, avals]
  | cons e rest ih =>
    simp only [merge_tally, List.foldl_cons] at ih ⊢
    rw [ih, strand_total_mincr]
    by_cases hs : strand = s'
    · simp [hs, avals]
      omega
    · simp [hs, avals]

theorem merge_strandmap_strand_total (offset : Int) (sm : StrandMap)
    (macc : StrandMap) (s' : String) :
    strand_total (merge_strandmap offset sm macc) s' =
      strand_total sm s' + strand_total macc s' := by
  induction sm generalizing macc with
  | nil => simp [merge_strandmap, strand_total]
  | cons sc rest ih =>
    simp only [merge_strandmap, List.foldl_cons] at ih ⊢
    rw [ih, merge_tally_strand_total]
    simp only [strand_total, List.map_cons, List.sum_cons]
    omega

theorem merge_fold_strand_total (alignments : Nat → StrandMap)
    (psite_offsets : List (Nat × Int)) (macc : StrandMap) (s : String) :
    strand_total (psite_offsets.foldl (fun m lo =>
        merge_strandmap lo.2 (alignments lo.1) m) macc) s =
      (psite_offsets.map (fun lo => strand_total (alignments lo.1) s)).sum +
        strand_total macc s := by
  induction psite_offsets generalizing macc with
  | nil => simp
  | cons lo rest ih =>
    simp only [List.foldl_cons]
    rw [ih, merge_strandmap_strand_total]
    simp only [List.map_cons, List.sum_cons]
    omega

theorem merge_fold_congr (alignments alignments' : Nat → StrandMap)
    (psite_offsets : List (Nat × Int)) (macc : StrandMap)
    (hagree : ∀ lo ∈ psite_offsets, alignments lo.1 = alignments' lo.1) :
    psite_offsets.foldl (fun m lo => merge_strandmap lo.2 (alignments lo.1) m) macc =
      psite_offsets.foldl (fun m lo => merge_strandmap lo.2 (alignments' lo.1) m) macc := by
  induction psite_offsets generalizing macc with
  | nil => rfl
  | cons lo rest ih =>
    simp only [List.foldl_cons]
    rw [hagree lo (by simp)]
    exact ih _ (fun lo' h => hagree lo' (by simp [h]))

/-- Per-length tallies of end-to-end scenario 1: three reads of length 28
at 5'-positions 100, 103 and 106 on strand `+` of chr1. -/
def scenario1_alignments : Nat → StrandMap := fun len =>
  if len = 28 then
    [("+", [(("chr1", 100), 1), (("chr1", 103), 1), (("chr1", 106), 1)])]
  else []

/-- Claim C1: merging shifts each recorded (chromosome, position) key by that
length's offset — position plus offset on strand `+`, minus on `-` — and sums
the shifted counts across all lengths into one per-strand merged profile;
concretely, three reads of length 28 at 5'-positions 100, 103, 106 on `+` of
chr1 with offset 12 for length 28 merge to count 1 at each of 112, 115, 118. -/
theorem C1_merge_shifts_and_sums :
    (∀ (alignments : Nat → StrandMap) (psite_offsets : List (Nat × Int))
        (s : String) (k : PosKey),
      mlookup (merge_read_lengths alignments psite_offsets) s k =
        merged_profile_spec alignments psite_offsets s k) ∧
    mlookup (merge_read_lengths scenario1_alignments [(28, 12)]) "+" ("chr1", 112) = 1 ∧
    mlookup (merge_read_lengths scenario1_alignments [(28, 12)]) "+" ("chr1", 115) = 1 ∧
    mlookup (merge_read_lengths scenario1_alignments [(28, 12)]) "+" ("chr1", 118) = 1 := by
  refine ⟨merge_read_lengths_mlookup, ?_, ?_, ?_⟩ <;> decide

/-- Claim C4: the merged profile is independent of the order in which the
read lengths are merged — any permutation of the offset table yields the
identical per-strand position-to-count mapping. -/
theorem C4_merge_order_independent (alignments : Nat → StrandMap)
    (psite_offsets psite_offsets' : List (Nat × Int))
    (hperm : psite_offsets.Perm psite_offsets') (s : String) (k : PosKey) :
    mlookup (merge_read_lengths alignments psite_offsets) s k =
      mlookup (merge_read_lengths alignments psite_offsets') s k := by
  rw [merge_read_lengths_mlookup, merge_read_lengths_mlookup]
  unfold merged_profile_spec
  exact List.Perm.sum_eq (hperm.map _)

/-- Witness for C4 at a concrete permuted offset table. -/
theorem C4_witness :
    ([((28 : Nat), (12 : Int)), (30, 13)].Perm [((30 : Nat), (13 : Int)), (28, 12)]) ∧
    mlookup (merge_read_lengths scenario1_alignments [(28, 12), (30, 13)]) "+" ("chr1", 112) =
      mlookup (merge_read_lengths scenario1_alignments [(30, 13), (28, 12)]) "+" ("chr1", 112) :=
  ⟨List.Perm.swap _ _ _,
   C4_merge_order_independent scenario1_alignments _ _ (List.Perm.swap _ _ _) "+" ("chr1", 112)⟩

/-- Claim C9: merging conserves total read count restricted to the offset
table: per strand, the merged profile's total count is the sum of the tally
totals of exactly the read lengths appearing in the offset table, and tallies
of lengths absent from the offset table never influence the merged profile. -/
theorem C9_merge_conserves_counts (alignments alignments' : Nat → StrandMap)
    (psite_offsets : List (Nat × Int))
    (hnodup : (psite_offsets.map Prod.fst).Nodup)
    (hagree : ∀ lo ∈ psite_offsets, alignments lo.1 = alignments' lo.1)
    (s : String) :
    strand_total (merge_read_lengths alignments psite_offsets) s =
      (psite_offsets.map (fun lo => strand_total (alignments lo.1) s)).sum ∧
    merge_read_lengths alignments psite_offsets =
      merge_read_lengths alignments' psite_offsets := by
  constructor
  · unfold merge_read_lengths
    rw [merge_fold_strand_total]
    simp [strand_total]
  · unfold merge_read_lengths
    exact merge_fold_congr alignments alignments' psite_offsets [] hagree

/-- Witness for C9: lengths 28 and 29 are tallied, the offset table retains
only length 28, and a second alignments map differing only at the absent
length 29 merges identically. -/
theorem C9_witness :
    (([((28 : Nat), (12 : Int))].map Prod.fst).Nodup ∧
      (∀ lo ∈ [((28 : Nat), (12 : Int))], scenario1_alignments lo.1 =
        (fun len => if len = 28 then scenario1_alignments 28 else
          [("-", [(("chr2", 50), 7)])]) lo.1)) ∧
    (strand_total (merge_read_lengths scenario1_alignments [(28, 12)]) "+" =
      ([((28 : Nat), (12 : Int))].map
        (fun lo => strand_total (scenario1_alignments lo.1) "+")).sum ∧
      merge_read_lengths scenario1_alignments [(28, 12)] =
        merge_read_lengths (fun len => if len = 28 then scenario1_alignments 28 else
          [("-", [(("chr2", 50), 7)])]) [(28, 12)]) :=
  ⟨⟨by decide, by decide⟩,
   C9_merge_conserves_counts scenario1_alignments
     (fun len => if len = 28 then scenario1_alignments 28 else
       [("-", [(("chr2", 50), 7)])])
     [(28, 12)] (by decide) (by decide) "+"⟩

/-- A genomic interval of an ORF, 0-based, both ends inclusive
(`interval.start`, `interval.end` in the Python source; `end` is a
reserved word in Lean, hence `stop`). -/
structure Interval where
  start : Int
  stop : Int
  deriving DecidableEq, Repr

/-- An ORF record: identifier, chromosome, strand, ordered intervals,
category (the fields of `RiboCop.orf.ORF` used by `detect_orfs.py`). -/
structure ORF where
  oid : String
  chrom : String
  strand : String
  intervals : List Interval
  category : String
  deriving DecidableEq, Repr

/-- Embedding of Python `range(a, b)`: the integers `a, a+1, …, b-1`,
empty when `b ≤ a`. -/
def intRange (a b : Int) : List Int :=
  (List.range (b - a).toNat).map (fun i : Nat => a + (i : Int))

theorem intRange_length (a b : Int) : (intRange a b).length = (b - a).toNat := by
  simp only [intRange, List.length_map, List.length_range]

/-- Total exonic length of an ORF: the sum of its interval spans. -/
def total_exonic_length (orf : ORF) : Nat :=
  (orf.intervals.map (fun iv => (iv.stop - iv.start + 1).toNat)).sum

/-- Embedding of `RiboCop.detect_orfs.orf_coverage`: the ordered
per-nucleotide counts of the merged profile over a 5' flank, the exonic
positions of every interval, and a 3' flank; flank roles are swapped and
the sequence reversed on strand `-`.  The Python code indexes
`orf.intervals[0]` and `orf.intervals[-1]`, so an ORF without intervals
raises `IndexError`, modelled as `none`.  Missing positions read as count
`0` (the `except KeyError: coverage.append(0)` branches).  The result
models the values of the returned `pd.Series` (its index is the range
`[-offset_5p, len - offset_5p)` and carries no extra information). -/
def orf_coverage (orf : ORF) (alignments : StrandMap)
    (offset_5p : Nat := 20) (offset_3p : Nat := 0) : Option (List Nat) :=
  let chrom := orf.chrom
  let strand := orf.strand
  let o5 : Int := if strand = "-" then offset_3p else offset_5p
  let o3 : Int := if strand = "-" then offset_5p else offset_3p
  match orf.intervals.head?, orf.intervals.getLast? with
  | some first, some last =>
    let cov5 := (intRange (first.start - o5) first.start).map
      (fun pos => mlookup alignments strand (chrom, pos))
    let covBody := (orf.intervals.map (fun iv =>
      (intRange iv.start (iv.stop + 1)).map
        (fun pos => mlookup alignments strand (chrom, pos)))).flatten
    let cov3 := (intRange (last.stop + 1) (last.stop + o3 + 1)).map
      (fun pos => mlookup alignments strand (chrom, pos))
    let coverage := cov5 ++ covBody ++ cov3
    some (if strand = "-" then coverage.reverse else coverage)
  | _, _ => none

theorem orf_coverage_eq_some (orf : ORF) (alignments : StrandMap)
    (offset_5p offset_3p : Nat) (hne : orf.intervals ≠ []) :
    ∃ cov, orf_coverage orf alignments offset_5p offset_3p = some cov := by
  match h : orf.intervals with
  | [] => exact absurd h hne
  | iv :: rest =>
    have h1 : orf.intervals.head? = some iv := by rw [h]; rfl
    have h2 : orf.intervals.getLast? = some ((iv :: rest).getLast (by simp)) := by
      rw [h]
      exact (List.getLast?_eq_getLast _ (by simp)).symm
    exact ⟨_, by rw [orf_coverage, h1, h2]⟩

theorem orf_coverage_length (orf : ORF) (alignments : StrandMap)
    (offset_5p offset_3p : Nat) (cov : List Nat)
    (hcov : orf_coverage orf alignments offset_5p offset_3p = some cov) :
    cov.length = offset_5p + total_exonic_length orf + offset_3p := by
  match h : orf.intervals with
  | [] => simp [orf_coverage, h] at hcov
  | iv :: rest =>
    have h1 : orf.intervals.head? = some iv := by rw [h]; rfl
    have h2 : orf.intervals.getLast? = some ((iv :: rest).getLast (by simp)) := by
      rw [h]
      exact (List.getLast?_eq_getLast _ (by simp)).symm
    rw [orf_coverage, h1, h2] at hcov
    simp only [Option.some_inj] at hcov
    subst hcov
    have hbody : ∀ (f : Int → Nat) (l : List Interval),
        ((l.map (fun ivx =>
          (intRange ivx.start (ivx.stop + 1)).map f)).flatten).length =
          (l.map (fun ivx => (ivx.stop - ivx.start + 1).toNat)).sum := by
      intro f l
      induction l with
      | nil => rfl
      | cons x xs ih =>
        simp only [List.map_cons, List.flatten_cons, List.length_append, ih,
          List.length_map, intRange_length, List.sum_cons]
        congr 1
        omega
    by_cases hstrand : orf.strand = "-" <;>
      simp only [hstrand, reduceIte, List.length_reverse,
        List.length_append, List.length_map, intRange_length, hbody,
        total_exonic_length] <;>
      omega

/-- Claim C2: for every ORF with a nonempty list of well-formed intervals and
any flank sizes `(f5, f3)`, the coverage vector produced by `orf_coverage`
has length exactly `f5 + total_exonic_length(ORF) + f3`, on both strands
(flank swapping on strand `-` included). -/
theorem C2_coverage_vector_length (orf : ORF) (alignments : StrandMap)
    (offset_5p offset_3p : Nat) (hne : orf.intervals ≠ [])
    (hwf : ∀ iv ∈ orf.intervals, iv.start ≤ iv.stop) :
    ∃ cov, orf_coverage orf alignments offset_5p offset_3p = some cov ∧
      cov.length = offset_5p + total_exonic_length orf + offset_3p := by
  obtain ⟨cov, hcov⟩ := orf_coverage_eq_some orf alignments offset_5p offset_3p hne
  exact ⟨cov, hcov, orf_coverage_length orf alignments offset_5p offset_3p cov hcov⟩

/-- Witness for C2: a two-interval ORF on strand `-` with flanks (7, 2). -/
theorem C2_witness :
    ((⟨"ORF2", "chr2", "-", [⟨10, 15⟩, ⟨20, 25⟩], "uORF"⟩ : ORF).intervals ≠ [] ∧
      (∀ iv ∈ (⟨"ORF2", "chr2", "-", [⟨10, 15⟩, ⟨20, 25⟩], "uORF"⟩ : ORF).intervals,
        iv.start ≤ iv.stop)) ∧
    ∃ cov, orf_coverage ⟨"ORF2", "chr2", "-", [⟨10, 15⟩, ⟨20, 25⟩], "uORF"⟩ [] 7 2 =
        some cov ∧
      cov.length = 7 + total_exonic_length ⟨"ORF2", "chr2", "-",
        [⟨10, 15⟩, ⟨20, 25⟩], "uORF"⟩ + 2 :=
  ⟨⟨by decide, by decide⟩,
   C2_coverage_vector_length ⟨"ORF2", "chr2", "-", [⟨10, 15⟩, ⟨20, 25⟩], "uORF"⟩
     [] 7 2 (by decide) (by decide)⟩

theorem mlookup_eq_zero (m : StrandMap) (s : String) (k : PosKey)
    (h : ∀ sc ∈ m, sc.1 = s → ∀ e ∈ sc.2, e.1 ≠ k) : mlookup m s k = 0 := by
  induction m with
  | nil => rfl
  | cons sc rest ih =>
    by_cases hs : sc.1 = s
    · simp only [mlookup, mget, if_pos hs]
      exact aget_eq_zero _ _ (h sc (by simp) hs)
    · simp only [mlookup, mget, if_neg hs]
      exact ih (fun sc' h1 h2 => h sc' (by simp [h1]) h2)

/-- Claim C5: a position in the requested range that is absent from the
merged profile contributes count 0 and never raises (for any ORF with
intervals the extraction succeeds); concretely, a `+`-strand ORF with
interval (200, 209) and flanks (5, 0) over a profile holding only count 4 at
chr1:200 yields exactly `[0,0,0,0,0,4,0,0,0,0,0,0,0,0,0]`. -/
theorem C5_missing_positions_read_zero (orf : ORF) (alignments : StrandMap)
    (offset_5p offset_3p : Nat) (m : StrandMap) (s : String) (k : PosKey)
    (hne : orf.intervals ≠ [])
    (habsent : ∀ sc ∈ m, sc.1 = s → ∀ e ∈ sc.2, e.1 ≠ k) :
    (orf_coverage orf alignments offset_5p offset_3p).isSome ∧
    mlookup m s k = 0 ∧
    orf_coverage ⟨"ORF1", "chr1", "+", [⟨200, 209⟩], "CDS"⟩
      [("+", [(("chr1", 200), 4)])] 5 0 =
      some [0, 0, 0, 0, 0, 4, 0, 0, 0, 0, 0, 0, 0, 0, 0] := by
  refine ⟨?_, mlookup_eq_zero m s k habsent, by decide⟩
  obtain ⟨cov, hcov⟩ := orf_coverage_eq_some orf alignments offset_5p offset_3p hne
  simp [hcov]

/-- Witness for C5 at a concrete ORF, profile and absent position chr1:195. -/
theorem C5_witness :
    ((([⟨200, 209⟩] : List Interval) ≠ []) ∧
      (∀ sc ∈ ([("+", [(("chr1", 200), 4)])] : StrandMap), sc.1 = "+" →
        ∀ e ∈ sc.2, e.1 ≠ (("chr1", 195) : PosKey))) ∧
    ((orf_coverage ⟨"ORF1", "chr1", "+", [⟨200, 209⟩], "CDS"⟩
        [("+", [(("chr1", 200), 4)])] 5 0).isSome ∧
      mlookup [("+", [(("chr1", 200), 4)])] "+" ("chr1", 195) = 0 ∧
      orf_coverage ⟨"ORF1", "chr1", "+", [⟨200, 209⟩], "CDS"⟩
        [("+", [(("chr1", 200), 4)])] 5 0 =
        some [0, 0, 0, 0, 0, 4, 0, 0, 0, 0, 0, 0, 0, 0, 0]) :=
  ⟨⟨by decide, by decide⟩,
   C5_missing_positions_read_zero ⟨"ORF1", "chr1", "+", [⟨200, 209⟩], "CDS"⟩
     [("+", [(("chr1", 200), 4)])] 5 0
     [("+", [(("chr1", 200), 4)])] "+" ("chr1", 195)
     (by decide) (by decide)⟩

theorem intRange_empty (a b : Int) (h : b ≤ a) : intRange a b = [] := by
  have h0 : (b - a).toNat = 0 := by omega
  rw [intRange, h0]
  rfl

theorem intRange_succ_last (a b : Int) (h : a < b) :
    intRange a b = intRange a (b - 1) ++ [b - 1] := by
  have hm : (b - a).toNat = (b - 1 - a).toNat + 1 := by omega
  simp only [intRange, hm, List.range_succ, List.map_append]
  congr 1
  simp only [List.map_cons, List.map_nil]
  congr 1
  omega

theorem intRange_cons (a b : Int) (h : a < b) :
    intRange a b = a :: intRange (a + 1) b := by
  have hm : (b - a).toNat = (b - (a + 1)).toNat + 1 := by omega
  simp only [intRange, hm, List.range_succ_eq_map, List.map_cons, List.map_map]
  have hfun : ((fun i : Nat => a + (i : Int)) ∘ Nat.succ) =
      (fun i : Nat => (a + 1) + (i : Int)) := by
    funext i
    simp only [Function.comp]
    push_cast
    ring
  rw [hfun]
  congr 1
  omega

theorem intRange_reflect_aux (g : Int → Nat) (M a : Int) (n : Nat) :
    ∀ b : Int, (b - a).toNat = n →
      ((intRange a b).map (fun p => g (M - p))).reverse =
        (intRange (M - b + 1) (M - a + 1)).map g := by
  induction n with
  | zero =>
    intro b hb
    rw [intRange_empty a b (by omega), intRange_empty _ _ (by omega)]
    rfl
  | succ m ih =>
    intro b hb
    have hab : a < b := by omega
    rw [intRange_succ_last a b hab, List.map_append, List.reverse_append,
      ih (b - 1) (by omega), intRange_cons (M - b + 1) (M - a + 1) (by omega),
      List.map_cons]
    simp only [List.map_cons, List.map_nil, List.reverse_cons, List.reverse_nil,
      List.nil_append, List.singleton_append]
    have e1 : M - (b - 1) + 1 = M - b + 1 + 1 := by ring
    have e2 : M - (b - 1) = M - b + 1 := by ring
    rw [e1, e2]

theorem intRange_reflect (g : Int → Nat) (M a b : Int) :
    ((intRange a b).map (fun p => g (M - p))).reverse =
      (intRange (M - b + 1) (M - a + 1)).map g :=
  intRange_reflect_aux g M a ((b - a).toNat) b rfl

theorem intRange_reflect' (g : Int → Nat) (M u v u' v' : Int)
    (hu : u' = M - v + 1) (hv : v' = M - u + 1) :
    ((intRange u v).map (fun p => g (M - p))).reverse = (intRange u' v').map g := by
  subst hu hv
  exact intRange_reflect g M u v

/-- Coordinate reflection of an interval about the point `M`: position `p`
maps to `M - p`, so the inclusive interval `[start, stop]` maps to
`[M - stop, M - start]`. -/
def Interval.reflect (M : Int) (iv : Interval) : Interval :=
  ⟨M - iv.stop, M - iv.start⟩

/-- The strand-flipped mirror image of an ORF: same identifier, chromosome
and category, strand `-`, and the coordinate-reflected intervals listed in
ascending genomic order again (hence reversed). -/
def ORF.mirror (M : Int) (orf : ORF) : ORF :=
  ⟨orf.oid, orf.chrom, "-", (orf.intervals.map (Interval.reflect M)).reverse,
    orf.category⟩

theorem body_reflect (g : Int → Nat) (M : Int) (L : List Interval) :
    (((L.map (Interval.reflect M)).reverse.map (fun ivx =>
      (intRange ivx.start (ivx.stop + 1)).map (fun p => g (M - p)))).flatten).reverse =
      (L.map (fun ivx => (intRange ivx.start (ivx.stop + 1)).map g)).flatten := by
  induction L with
  | nil => rfl
  | cons x xs ih =>
    simp only [List.map_cons, List.reverse_cons, List.map_append, List.map_nil,
      List.flatten_append, List.flatten_cons, List.flatten_nil, List.append_nil,
      List.reverse_append]
    rw [ih]
    congr 1
    simp only [Interval.reflect]
    exact intRange_reflect' g M (M - x.stop) (M - x.start + 1) x.start (x.stop + 1)
      (by ring) (by ring)

/-- Claim C3 (strand symmetry): for an ORF on strand `+` and its
coordinate-reflected mirror image on strand `-`, paired with a merged
profile whose `-`-strand counts are the mirror reflection of the
`+`-strand counts, `orf_coverage` produces the same sequence of coverage
values — genomic flank roles swap and the assembled sequence is reversed so
index 0 is the first biological nucleotide in both cases. -/
theorem C3_strand_symmetry (orf : ORF) (M : Int) (a a' : StrandMap)
    (offset_5p offset_3p : Nat)
    (hstrand : orf.strand = "+")
    (hmirror : ∀ p : Int, mlookup a' "-" (orf.chrom, p) =
      mlookup a "+" (orf.chrom, M - p)) :
    orf_coverage (ORF.mirror M orf) a' offset_5p offset_3p =
      orf_coverage orf a offset_5p offset_3p := by
  have hfun : (fun pos => mlookup a' "-" (orf.chrom, pos)) =
      (fun pos => mlookup a "+" (orf.chrom, M - pos)) := funext hmirror
  cases hL : orf.intervals with
  | nil =>
    have hLm : (ORF.mirror M orf).intervals = [] := by
      simp [ORF.mirror, hL]
    rw [orf_coverage, orf_coverage]
    rw [hL, hLm]
    rfl
  | cons iv rest =>
    have hne : iv :: rest ≠ ([] : List Interval) := by simp
    have hh1 : (iv :: rest : List Interval).head? = some iv := rfl
    have hh2 : (iv :: rest : List Interval).getLast? =
        some ((iv :: rest).getLast hne) :=
      (List.getLast?_eq_getLast _ hne).symm
    have hLm : (ORF.mirror M orf).intervals =
        ((iv :: rest).map (Interval.reflect M)).reverse := by
      simp [ORF.mirror, hL]
    have hm1 : (((iv :: rest).map (Interval.reflect M)).reverse).head? =
        some (Interval.reflect M ((iv :: rest).getLast hne)) := by
      rw [List.head?_reverse, List.getLast?_map, hh2]
      rfl
    have hm2 : (((iv :: rest).map (Interval.reflect M)).reverse).getLast? =
        some (Interval.reflect M iv) := by
      rw [List.getLast?_reverse, List.head?_map]
      rfl
    have hsm : (ORF.mirror M orf).strand = "-" := rfl
    have hcm : (ORF.mirror M orf).chrom = orf.chrom := rfl
    rw [orf_coverage, orf_coverage]
    rw [hL, hLm, hm1, hm2, hh1, hh2, hsm, hcm, hstrand]
    simp only [show (("-" : String) = "-") = True from by simp,
      show (("+" : String) = "-") = False from by decide, if_true, if_false,
      Interval.reflect]
    congr 1
    rw [List.reverse_append, List.reverse_append, hfun]
    rw [body_reflect (fun p => mlookup a "+" (orf.chrom, p)) M (iv :: rest)]
    rw [intRange_reflect' (fun p => mlookup a "+" (orf.chrom, p)) M
      (M - iv.start + 1) (M - iv.start + (offset_5p : Int) + 1)
      (iv.start - (offset_5p : Int)) iv.start (by ring) (by ring)]
    rw [intRange_reflect' (fun p => mlookup a "+" (orf.chrom, p)) M
      (M - ((iv :: rest).getLast hne).stop - (offset_3p : Int))
      (M - ((iv :: rest).getLast hne).stop)
      (((iv :: rest).getLast hne).stop + 1)
      (((iv :: rest).getLast hne).stop + (offset_3p : Int) + 1)
      (by ring) (by ring)]
    simp [List.append_assoc]

/-- Witness for C3: a one-interval ORF at chr1:[100,105] mirrored about
M = 300, with a single read at chr1:102 on `+` mirrored to chr1:198 on `-`. -/
theorem C3_witness :
    ((⟨"ORF1", "chr1", "+", [⟨100, 105⟩], "CDS"⟩ : ORF).strand = "+" ∧
      (∀ p : Int, mlookup [("-", [(("chr1", 198), 3)])] "-" ("chr1", p) =
        mlookup [("+", [(("chr1", 102), 3)])] "+" ("chr1", 300 - p))) ∧
    orf_coverage (ORF.mirror 300 ⟨"ORF1", "chr1", "+", [⟨100, 105⟩], "CDS"⟩)
        [("-", [(("chr1", 198), 3)])] 2 1 =
      orf_coverage ⟨"ORF1", "chr1", "+", [⟨100, 105⟩], "CDS"⟩
        [("+", [(("chr1", 102), 3)])] 2 1 :=
  ⟨⟨rfl, fun p => by
      simp [mlookup, mget, aget, Prod.ext_iff]
      split_ifs <;> omega⟩,
   C3_strand_symmetry ⟨"ORF1", "chr1", "+", [⟨100, 105⟩], "CDS"⟩ 300
     [("+", [(("chr1", 102), 3)])] [("-", [(("chr1", 198), 3)])] 2 1 rfl
     (fun p => by
       simp [mlookup, mget, aget, Prod.ext_iff]
       split_ifs <;> omega)⟩

/-- Loop of `RiboCop.detect_orfs.parse_annotation` over the annotation
lines: the `header` flag skips the first line, lines for which
`ORF.from_string` returns `None` are skipped, and parsed ORFs are appended
to the `cds`, `uorfs` or `dorfs` accumulator according to their category;
an ORF of any other category is appended to none of them.
`ORF.from_string` lives in `RiboCop/orf.py`, which is absent from `src/`;
modelled from the spec ("Malformed or unparseable rows are skipped, not
fatal") as an abstract parser parameter returning `none` on such rows. -/
def parse_annotation_go (from_string : String → Option ORF) :
    List String → Bool → List ORF → List ORF → List ORF →
    List ORF × List ORF × List ORF
  | [], _, cds, uorfs, dorfs => (cds, uorfs, dorfs)
  | line :: rest, header, cds, uorfs, dorfs =>
    if header then parse_annotation_go from_string rest false cds uorfs dorfs
    else
      match from_string line with
      | none => parse_annotation_go from_string rest false cds uorfs dorfs
      | some orf =>
        if orf.category = "CDS" then
          parse_annotation_go from_string rest false (cds ++ [orf]) uorfs dorfs
        else if orf.category = "uORF" then
          parse_annotation_go from_string rest false cds (uorfs ++ [orf]) dorfs
        else if orf.category = "dORF" then
          parse_annotation_go from_string rest false cds uorfs (dorfs ++ [orf])
        else parse_annotation_go from_string rest false cds uorfs dorfs

/-- Embedding of `RiboCop.detect_orfs.parse_annotation` on the lines of the
annotation file (the `tqdm` progress bar and line counting have no
behavioural content and are omitted). -/
def parse_annotation (from_string : String → Option ORF) (lines : List String) :
    List ORF × List ORF × List ORF :=
  parse_annotation_go from_string lines true [] [] []

theorem parse_annotation_go_false (from_string : String → Option ORF)
    (lines : List String) (cds uorfs dorfs : List ORF) :
    parse_annotation_go from_string lines false cds uorfs dorfs =
      (cds ++ (lines.filterMap from_string).filter (fun o => o.category = "CDS"),
       uorfs ++ (lines.filterMap from_string).filter (fun o => o.category = "uORF"),
       dorfs ++ (lines.filterMap from_string).filter (fun o => o.category = "dORF")) := by
  induction lines generalizing cds uorfs dorfs with
  | nil => simp [parse_annotation_go]
  | cons line rest ih =>
    simp only [parse_annotation_go, List.filterMap_cons, if_neg (by simp : ¬ False)]
    cases hfs : from_string line with
    | none => simp [ih]
    | some orf =>
      by_cases h1 : orf.category = "CDS"
      · simp [h1, ih, List.filter_cons]
      · by_cases h2 : orf.category = "uORF"
        · simp [h1, h2, ih, List.filter_cons]
        · by_cases h3 : orf.category = "dORF"
          · simp [h1, h2, h3, ih, List.filter_cons]
          · simp [h1, h2, h3, ih, List.filter_cons]

/-- Claim C10: `parse_annotation` skips the first (header) line and every
line on which `ORF.from_string` returns `None`, partitions the remaining
ORFs into the three category lists, and silently drops any ORF whose
category is none of CDS, uORF, dORF. -/
theorem C10_parse_annotation_partitions (from_string : String → Option ORF)
    (lines : List String) :
    parse_annotation from_string lines =
      (((lines.drop 1).filterMap from_string).filter (fun o => o.category = "CDS"),
       ((lines.drop 1).filterMap from_string).filter (fun o => o.category = "uORF"),
       ((lines.drop 1).filterMap from_string).filter (fun o => o.category = "dORF")) ∧
    (∀ orf : ORF, orf.category ≠ "CDS" → orf.category ≠ "uORF" →
      orf.category ≠ "dORF" →
      orf ∉ ( parse_annotation from_string lines).1 ∧
      orf ∉ ( parse_annotation from_string lines).2.1 ∧
      orf ∉ ( parse_annotation from_string lines).2.2) := by
  have hmain : parse_annotation from_string lines =
      (((lines.drop 1).filterMap from_string).filter (fun o => o.category = "CDS"),
       ((lines.drop 1).filterMap from_string).filter (fun o => o.category = "uORF"),
       ((lines.drop 1).filterMap from_string).filter (fun o => o.category = "dORF")) := by
    cases lines with
    | nil => rfl
    | cons first rest =>
      show parse_annotation_go from_string rest false [] [] [] = _
      rw [parse_annotation_go_false]
      simp
  refine ⟨hmain, fun orf h1 h2 h3 => ?_⟩
  rw [hmain]
  refine ⟨?_, ?_, ?_⟩ <;>
    simp only [List.mem_filter] <;>
    exact fun hmem => absurd (of_decide_eq_true hmem.2) (by simp_all)

/-- Witness for C10: a header line, one CDS row, one row of the
unrecognised category tRNA and one unparseable row. -/
theorem C10_witness :
    parse_annotation
        (fun line => if line = "A" then some ⟨"o1", "c1", "+", [⟨0, 2⟩], "CDS"⟩
          else if line = "B" then some ⟨"o2", "c1", "+", [⟨0, 2⟩], "tRNA"⟩
          else none)
        ["header", "A", "B", "junk"] =
      (((["header", "A", "B", "junk"].drop 1).filterMap
          (fun line => if line = "A" then some ⟨"o1", "c1", "+", [⟨0, 2⟩], "CDS"⟩
            else if line = "B" then some ⟨"o2", "c1", "+", [⟨0, 2⟩], "tRNA"⟩
            else none)).filter (fun o => o.category = "CDS"),
       ((["header", "A", "B", "junk"].drop 1).filterMap
          (fun line => if line = "A" then some ⟨"o1", "c1", "+", [⟨0, 2⟩], "CDS"⟩
            else if line = "B" then some ⟨"o2", "c1", "+", [⟨0, 2⟩], "tRNA"⟩
            else none)).filter (fun o => o.category = "uORF"),
       ((["header", "A", "B", "junk"].drop 1).filterMap
          (fun line => if line = "A" then some ⟨"o1", "c1", "+", [⟨0, 2⟩], "CDS"⟩
            else if line = "B" then some ⟨"o2", "c1", "+", [⟨0, 2⟩], "tRNA"⟩
            else none)).filter (fun o => o.category = "dORF")) ∧
    ((⟨"o2", "c1", "+", [⟨0, 2⟩], "tRNA"⟩ : ORF).category ≠ "CDS" ∧
      (⟨"o2", "c1", "+", [⟨0, 2⟩], "tRNA"⟩ : ORF).category ≠ "uORF" ∧
      (⟨"o2", "c1", "+", [⟨0, 2⟩], "tRNA"⟩ : ORF).category ≠ "dORF") ∧
    ((⟨"o2", "c1", "+", [⟨0, 2⟩], "tRNA"⟩ : ORF) ∉
        ( parse_annotation
          (fun line => if line = "A" then some ⟨"o1", "c1", "+", [⟨0, 2⟩], "CDS"⟩
            else if line = "B" then some ⟨"o2", "c1", "+", [⟨0, 2⟩], "tRNA"⟩
            else none) ["header", "A", "B", "junk"]).1 ∧
      (⟨"o2", "c1", "+", [⟨0, 2⟩], "tRNA"⟩ : ORF) ∉
        ( parse_annotation
          (fun line => if line = "A" then some ⟨"o1", "c1", "+", [⟨0, 2⟩], "CDS"⟩
            else if line = "B" then some ⟨"o2", "c1", "+", [⟨0, 2⟩], "tRNA"⟩
            else none) ["header", "A", "B", "junk"]).2.1 ∧
      (⟨"o2", "c1", "+", [⟨0, 2⟩], "tRNA"⟩ : ORF) ∉
        ( parse_annotation
          (fun line => if line = "A" then some ⟨"o1", "c1", "+", [⟨0, 2⟩], "CDS"⟩
            else if line = "B" then some ⟨"o2", "c1", "+", [⟨0, 2⟩], "tRNA"⟩
            else none) ["header", "A", "B", "junk"]).2.2) :=
  ⟨(C10_parse_annotation_partitions _ _).1,
   ⟨by decide, by decide, by decide⟩,
   (C10_parse_annotation_partitions _ _).2 ⟨"o2", "c1", "+", [⟨0, 2⟩], "tRNA"⟩
     (by decide) (by decide) (by decide)⟩

/-- Modelled from the spec: `coherence` from `RiboCop/statistics.py`
(absent from `src/`) — the PeriodicityTester — returns a coherence
statistic and a p-value (real-valued spectral statistics, modelled
abstractly through the serialisation parameters `cohStat` and `pvalStat`)
together with the nonzero-position count used as the validity proxy
(spec: "nonzero-position count (validity proxy)"). -/
def coherence (cohStat pvalStat : List Nat → String) (cov : List Nat) :
    String × String × Nat :=
  (cohStat cov, pvalStat cov, (cov.filter (fun c => c ≠ 0)).length)

/-- Python `str()` of a list of ints, as produced by `'{}'.format(cov)`. -/
def pylist_repr (l : List Nat) : String :=
  "[" ++ String.intercalate ", " (l.map toString) ++ "]"

/-- Header row of the coverage/statistics table. -/
def export_header : String :=
  "ORF_ID\tcoverage\tcount\tlength\tnonzero\tperiodicity\tpval\n"

/-- One data row of the coverage/statistics table, the embedding of
`'{}\t{}\t{}\t{}\t{}\t{}\t{}\n'.format(oid, cov, count, length, valid,
coh, pval)` where `count = sum(cov)` and `length = len(cov)`. -/
def orf_row (cohStat pvalStat : List Nat → String) (orf : ORF) (cov : List Nat) :
    String :=
  let count := cov.sum
  let length := cov.length
  let res := coherence cohStat pvalStat cov
  orf.oid ++ "\t" ++ pylist_repr cov ++ "\t" ++ toString count ++ "\t" ++
    toString length ++ "\t" ++ toString res.2.2 ++ "\t" ++ res.1 ++ "\t" ++
    res.2.1 ++ "\n"

/-- Row-accumulation loop of `export_orf_coverages` (`for orf in orfs`,
accumulating into `to_write`); `none` models the `IndexError` raised by
`orf_coverage` on an ORF without intervals. -/
def export_rows (merged_alignments : StrandMap)
    (cohStat pvalStat : List Nat → String) :
    List ORF → String → Option String
  | [], to_write => some to_write
  | orf :: rest, to_write =>
    match orf_coverage orf merged_alignments 20 0 with
    | none => none
    | some cov =>
      export_rows merged_alignments cohStat pvalStat rest
        (to_write ++ orf_row cohStat pvalStat orf cov)

/-- Embedding of `RiboCop.detect_orfs.export_orf_coverages`: the pair of
the output file name `<prefix>_translating_ORFs.tsv` and the full text
written to it (the header row followed by one row per ORF, default flanks
20 and 0). -/
def export_orf_coverages (orfs : List ORF) (merged_alignments : StrandMap)
    (pfx : String) (cohStat pvalStat : List Nat → String) :
    Option (String × String) :=
  (export_rows merged_alignments cohStat pvalStat orfs export_header).map
    (fun content => (pfx ++ "_translating_ORFs.tsv", content))

/-- Concatenation of a list of serialized rows. -/
def concat_rows : List String → String
  | [] => ""
  | r :: rest => r ++ concat_rows rest

theorem export_rows_eq (merged : StrandMap) (cohStat pvalStat : List Nat → String)
    (orfs : List ORF) (acc : String)
    (h : ∀ orf ∈ orfs, orf.intervals ≠ []) :
    export_rows merged cohStat pvalStat orfs acc =
      some (acc ++ concat_rows (orfs.map (fun orf =>
        orf_row cohStat pvalStat orf ((orf_coverage orf merged 20 0).getD [])))) := by
  induction orfs generalizing acc with
  | nil => simp [export_rows, concat_rows]
  | cons orf rest ih =>
    obtain ⟨cov, hcov⟩ := orf_coverage_eq_some orf merged 20 0 (h orf (by simp))
    simp only [export_rows, hcov, List.map_cons, concat_rows]
    rw [ih _ (fun o ho => h o (by simp [ho]))]
    simp [Option.getD_some, String.append_assoc]

/-- Claim C6: for every ORF list and merged profile, `export_orf_coverages`
produces the file `<prefix>_translating_ORFs.tsv` whose text is exactly one
header row followed by one row per input ORF in input order; each row holds,
tab-separated: the ORF identifier, the serialized coverage list, the total
count (the sum of the coverage vector), the vector length (its number of
entries), the nonzero-position count, the coherence value and the p-value
(see `orf_row` and `coherence`). -/
theorem C6_export_table_shape (orfs : List ORF) (merged : StrandMap)
    (pfx : String) (cohStat pvalStat : List Nat → String)
    (h : ∀ orf ∈ orfs, orf.intervals ≠ []) :
    export_orf_coverages orfs merged pfx cohStat pvalStat =
      some (pfx ++ "_translating_ORFs.tsv",
        export_header ++ concat_rows (orfs.map (fun orf =>
          orf_row cohStat pvalStat orf
            ((orf_coverage orf merged 20 0).getD [])))) := by
  rw [export_orf_coverages, export_rows_eq merged cohStat pvalStat orfs export_header h]
  rfl

/-- Witness for C6: two single-interval ORFs over the empty profile with
constant placeholder statistics. -/
theorem C6_witness :
    (∀ orf ∈ [(⟨"o1", "c1", "+", [⟨0, 2⟩], "CDS"⟩ : ORF),
        ⟨"o2", "c1", "-", [⟨5, 7⟩], "uORF"⟩], orf.intervals ≠ []) ∧
    export_orf_coverages
        [⟨"o1", "c1", "+", [⟨0, 2⟩], "CDS"⟩, ⟨"o2", "c1", "-", [⟨5, 7⟩], "uORF"⟩]
        [] "out" (fun _ => "c") (fun _ => "p") =
      some ("out" ++ "_translating_ORFs.tsv",
        export_header ++ concat_rows
          ([(⟨"o1", "c1", "+", [⟨0, 2⟩], "CDS"⟩ : ORF),
            ⟨"o2", "c1", "-", [⟨5, 7⟩], "uORF"⟩].map (fun orf =>
            orf_row (fun _ => "c") (fun _ => "p") orf
              ((orf_coverage orf [] 20 0).getD [])))) :=
  ⟨by decide,
   C6_export_table_shape
     [⟨"o1", "c1", "+", [⟨0, 2⟩], "CDS"⟩, ⟨"o2", "c1", "-", [⟨5, 7⟩], "uORF"⟩]
     [] "out" (fun _ => "c") (fun _ => "p") (by decide)⟩

/-- An aligned read as consumed by `RiboCop.infer_protocol.infer_protocol`:
the uniqueness predicate `_is_read_uniq_mapping(read)` (from
`RiboCop/count.py`, absent from `src/`) is modelled as the precomputed
field `is_uniq_mapping`. -/
structure Read where
  is_uniq_mapping : Bool
  is_reverse : Bool
  reference_start : Int
  reference_end : Int
  reference_name : String
  deriving DecidableEq, Repr

/-- The read loop of `RiboCop.infer_protocol.infer_protocol`: skip reads
that are not uniquely mapped, look up the gene strands overlapping the
read (`refseq[chrom].find(start, end)` on the interval tree built by
`read_refseq_bed`, absent from `src/`, modelled as an abstract lookup
function; `list(set(...))` is modelled by `List.dedup`), skip reads whose
gene strand is ambiguous, otherwise tally `mapped_strand + gene_strand`
and stop once `iteration >= n_reads`.  Returns the final iteration count
and the strandedness tally. -/
def infer_loop (refseq : String → Int → Int → List String) (n_reads : Nat) :
    List Read → Nat → List (String × Nat) → Nat × List (String × Nat)
  | [], iteration, strandedness => (iteration, strandedness)
  | read :: rest, iteration, strandedness =>
    if read.is_uniq_mapping = false then
      infer_loop refseq n_reads rest iteration strandedness
    else
      let mapped_strand := if read.is_reverse then "-" else "+"
      let gene_strand := (refseq read.reference_name read.reference_start
        read.reference_end).dedup
      if gene_strand.length ≠ 1 then
        infer_loop refseq n_reads rest iteration strandedness
      else
        let strandedness2 := aincr strandedness
          (mapped_strand ++ gene_strand.headD "") 1
        let iteration2 := iteration + 1
        if iteration2 ≥ n_reads then (iteration2, strandedness2)
        else infer_loop refseq n_reads rest iteration2 strandedness2

/-- Embedding of `RiboCop.infer_protocol.infer_protocol`: after the read
loop, pseudocounts are added to all four strandedness keys, the forward
and reverse tallies are formed, a summary is written to the file
`<prefix>_protocol.txt` (its numeric body uses float formatting and is not
modelled; the file name, first component here, is), and the protocol label
together with the two tallies is returned. -/
def infer_protocol (reads : List Read)
    (refseq : String → Int → Int → List String) (pfx : String)
    (n_reads : Nat := 20000) : String × String × Nat × Nat :=
  let r := infer_loop refseq n_reads reads 0 []
  let strandedness := aincr (aincr (aincr (aincr r.2 "++" 1) "--" 1) "+-" 1) "-+" 1
  let forward_mapped_reads := aget strandedness "++" + aget strandedness "--"
  let reverse_mapped_reads := aget strandedness "-+" + aget strandedness "+-"
  let protocol := if reverse_mapped_reads > forward_mapped_reads then "reverse"
    else "forward"
  (pfx ++ "_protocol.txt", protocol, forward_mapped_reads, reverse_mapped_reads)

theorem infer_loop_bound (refseq : String → Int → Int → List String)
    (n_reads : Nat) (reads : List Read) :
    ∀ (iteration : Nat) (acc : List (String × Nat)),
      (infer_loop refseq n_reads reads iteration acc).1 ≤
        max (iteration + 1) n_reads := by
  induction reads with
  | nil =>
    intro it acc
    simp only [infer_loop]
    omega
  | cons read rest ih =>
    intro it acc
    simp only [infer_loop]
    split
    · exact ih it acc
    · split
      · exact ih it acc
      · split
        · simp
        · exact le_trans (ih (it + 1) _) (by omega)

/-- Counterexample to C7 as stated: with sample bound `n_reads = 0` and a
single uniquely-mapped read with unambiguous gene strand, the loop still
tallies one read, exceeding the claimed bound "at most n_reads". -/
theorem C7_counterexample :
    (infer_loop (fun _ _ _ => ["+"]) 0
        [⟨true, false, 0, 10, "chr1"⟩] 0 []).1 = 1 ∧
    ¬ ((infer_loop (fun _ _ _ => ["+"]) 0
        [⟨true, false, 0, 10, "chr1"⟩] 0 []).1 ≤ 0) := by
  decide

/-- Claim C7 (amended): protocol inference tallies at most
`max(n_reads, 1)` uniquely-mapped reads with unambiguous gene strand (the
first qualifying read is always tallied before the bound is checked),
writes its summary to the file `<prefix>_protocol.txt`, and returns a
protocol label drawn from {forward, reverse, unstranded} together with the
forward and reverse tallies (each at least 1 by pseudocounting), the
numerators of the read-fraction estimates. -/
theorem C7_infer_protocol_props (reads : List Read)
    (refseq : String → Int → Int → List String) (pfx : String) (n_reads : Nat) :
    (infer_loop refseq n_reads reads 0 []).1 ≤ max n_reads 1 ∧
    (infer_protocol reads refseq pfx n_reads).1 = pfx ++ "_protocol.txt" ∧
    ((infer_protocol reads refseq pfx n_reads).2.1 = "forward" ∨
      (infer_protocol reads refseq pfx n_reads).2.1 = "reverse" ∨
      (infer_protocol reads refseq pfx n_reads).2.1 = "unstranded") ∧
    1 ≤ (infer_protocol reads refseq pfx n_reads).2.2.1 ∧
    1 ≤ (infer_protocol reads refseq pfx n_reads).2.2.2 := by
  refine ⟨?_, rfl, ?_, ?_, ?_⟩
  · have hb := infer_loop_bound refseq n_reads reads 0 []
    omega
  · simp only [infer_protocol]
    split
    · right
      left
      rfl
    · left
      rfl
  · simp [infer_protocol, aget_aincr]
    omega
  · simp [infer_protocol, aget_aincr]
    omega

/-- The argument record with which the CLI invokes
`RiboCop.detect_orfs.detect_orfs` (that function's parameters, with its
declared defaults for the ones the call site omits).  `detect_orfs` has no
read-length or offset parameter at all: its offset table always comes from
`align_metagenes(metagenes, read_lengths, prefix)` before
`merge_read_lengths` is called (detect_orfs.py lines 266-267). -/
structure DetectOrfsCall where
  bam : String
  pfx : String
  gtf : Option String
  fasta : Option String
  annotation : Option String
  protocol : Option String
  testRNA : Bool
  deriving DecidableEq, Repr

/-- Embedding of `RiboCop.cli.detect_orfs_cmd`: the command body is the
single call `detect_orfs(bam, prefix, gtf=gtf, annotation=annotation)`;
the parsed `readlength`, `offset` and `outputall` options are accepted by
the CLI but never forwarded. -/
def detect_orfs_cmd (bam annotation gtf pfx : String)
    (readlength offset : Option String) (outputall : Bool) : DetectOrfsCall :=
  { bam := bam, pfx := pfx, gtf := some gtf, fasta := none,
    annotation := some annotation, protocol := none, testRNA := false }

/-- Claim C8 evaluated on the code: supplying explicit read-length and
P-site-offset overrides to the detect-orfs command changes nothing — the
overrides are silently dropped by `detect_orfs_cmd`, so the metagene
alignment (`align_metagenes`) is never bypassed, contradicting the claim
(and the CLI's own `--offset` help text). -/
theorem C8_overrides_are_dropped :
    detect_orfs_cmd "a.bam" "anno.tsv" "g.gtf" "out"
        (some "28,29,30") (some "12,13,14") true =
      detect_orfs_cmd "a.bam" "anno.tsv" "g.gtf" "out" none none false := rfl
